import Mathlib

/-!
Verification of the `ConvertSlice` slice converter of the `tool` library.

The repository ships two variants of the converter:

* `safetool.ConvertSlice` (file `safetool/safetool.go`, here translated from
  the safetool source): returns `([]Y, error)`; nil source is an error, nil
  elements become zero values, numeric/bool to string conversion is rejected,
  struct fields are copied by name and a shared-name field with a
  non-assignable type is a hard error.
* `tool.ConvertSlice` (file `tool.go`): returns `[]Y` only; a nil source
  yields a nil result, there is no numeric/bool-to-string guard, mismatched
  struct fields are silently skipped, and the field-copy fallback calls
  `reflect.Value.NumField` / `FieldByName` without checking that both sides
  are structs, so it can panic at runtime.

The embedding models the fragment of Go's runtime type system the converter
exercises: booleans, a family of integer types, strings, pointers, the empty
interface, function values, and (non-embedded) struct types with named
fields.  Machine integers are carried as `Int` with explicit wrap-around on
conversion.  Go slices are `List Value`; the distinction between a nil
slice and an empty slice is an `Option (List Value)`.  Fallible Go code
returns `Except`; a Go panic is the `GoResult.panicked` constructor.
-/

/-- Go `reflect.Kind`.  The constructor order mirrors the `iota` order of the
Go constants so that the numeric comparisons of the source can be translated
verbatim via `Kind.code`. -/
inductive Kind where
  | invalid : Kind
  | bool : Kind
  | int : Kind
  | int8 : Kind
  | int16 : Kind
  | int32 : Kind
  | int64 : Kind
  | uint : Kind
  | uint8 : Kind
  | uint16 : Kind
  | uint32 : Kind
  | uint64 : Kind
  | uintptr : Kind
  | float32 : Kind
  | float64 : Kind
  | complex64 : Kind
  | complex128 : Kind
  | array : Kind
  | chan : Kind
  | func : Kind
  | interface : Kind
  | map : Kind
  | pointer : Kind
  | slice : Kind
  | string : Kind
  | struct : Kind
  | unsafePointer : Kind
  deriving DecidableEq, Repr

/-- The numeric value of each `reflect.Kind` constant (Go `iota` order). -/
def Kind.code : Kind → Nat
  | .invalid => 0
  | .bool => 1
  | .int => 2
  | .int8 => 3
  | .int16 => 4
  | .int32 => 5
  | .int64 => 6
  | .uint => 7
  | .uint8 => 8
  | .uint16 => 9
  | .uint32 => 10
  | .uint64 => 11
  | .uintptr => 12
  | .float32 => 13
  | .float64 => 14
  | .complex64 => 15
  | .complex128 => 16
  | .array => 17
  | .chan => 18
  | .func => 19
  | .interface => 20
  | .map => 21
  | .pointer => 22
  | .slice => 23
  | .string => 24
  | .struct => 25
  | .unsafePointer => 26

mutual
/-- The fragment of Go's type universe used by the converter: booleans, a
spread of integer types (signed and unsigned, several widths), strings,
pointers, the empty interface, function types, and struct types with named
fields.  Floating point and complex types are omitted from the universe (no
claim needs a float value) but their kinds exist in `Kind` so the kind-range
comparisons of the source are translated verbatim. -/
inductive Ty where
  | bool : Ty
  | int : Ty
  | int8 : Ty
  | int64 : Ty
  | uint : Ty
  | uint64 : Ty
  | string : Ty
  | iface : Ty
  | fn : Ty
  | ptr : Ty → Ty
  | strukt : Fields → Ty
  deriving DecidableEq, Repr

/-- The field list of a struct type: ordered, each field a name and a type.
Go requires the field names of a struct type to be pairwise distinct; where a
proof needs that fact it is an explicit hypothesis. -/
inductive Fields where
  | nil : Fields
  | cons : String → Ty → Fields → Fields
  deriving DecidableEq, Repr
end

/-- Go values of the modelled types.  A pointer carries its pointee type and
an optional pointee (`none` is a nil pointer); an interface value optionally
holds a concrete value (`none` is a nil interface); a struct value carries
its type's field list plus the field values in declaration order. -/
inductive Value where
  | vbool : Bool → Value
  | vint : Ty → Int → Value
  | vstring : String → Value
  | vptr : Ty → Option Value → Value
  | viface : Option Value → Value
  | vstruct : Fields → List Value → Value
  | vfunc : Value
  deriving Repr

/-- The `reflect.Kind` of a type. -/
def Ty.kind : Ty → Kind
  | .bool => .bool
  | .int => .int
  | .int8 => .int8
  | .int64 => .int64
  | .uint => .uint
  | .uint64 => .uint64
  | .string => .string
  | .iface => .interface
  | .fn => .func
  | .ptr _ => .pointer
  | .strukt _ => .struct

/-- The runtime type of a value (`reflect.Value.Type`).  An interface value
has the interface type itself only where it sits in an interface-typed slot;
`valueOf` below performs the unwrapping `reflect.ValueOf` does. -/
def Value.typeOf : Value → Ty
  | .vbool _ => .bool
  | .vint t _ => t
  | .vstring _ => .string
  | .vptr t _ => .ptr t
  | .viface _ => .iface
  | .vstruct fs _ => .strukt fs
  | .vfunc => .fn

/-- The `reflect.Kind` of a value. -/
def Value.kindOf (v : Value) : Kind := v.typeOf.kind

/-- Model of `reflect.ValueOf` applied to an element of a Go slice: if the element
sits in an interface-typed slot, `ValueOf` yields the dynamic value inside
(or the invalid `reflect.Value`, modelled `none`, for a nil interface). -/
def valueOf : Value → Option Value
  | .viface none => none
  | .viface (some w) => some w
  | v => some v

/-- Model of `reflect.Value.IsNil` for the pointer and interface kinds. -/
def Value.isNilRef : Value → Bool
  | .vptr _ none => true
  | .viface none => true
  | _ => false

/-- Go assignability restricted to this type universe: identical types, or
any value is assignable to the empty interface. -/
def AssignableTo (src dst : Ty) : Bool :=
  src == dst || dst == Ty.iface

/-- Whether a type is one of the modelled integer types. -/
def Ty.isInteger : Ty → Bool
  | .int => true
  | .int8 => true
  | .int64 => true
  | .uint => true
  | .uint64 => true
  | _ => false

/-- Go convertibility restricted to this type universe: assignability,
integer-to-integer conversion, and the (lossy) integer-to-string conversion
that reads the integer as a Unicode code point. -/
def ConvertibleTo (src dst : Ty) : Bool :=
  AssignableTo src dst || (src.isInteger && dst.isInteger) ||
    (src.isInteger && dst == Ty.string)

/-- Two's-complement wrap-around of an integer into the range of the target
integer type (`int` is 64-bit, as on the usual 64-bit targets). -/
def wrapInt (t : Ty) (n : Int) : Int :=
  if t == Ty.int8 then Int.bmod n (2 ^ 8)
  else if t == Ty.int || t == Ty.int64 then Int.bmod n (2 ^ 64)
  else if t == Ty.uint || t == Ty.uint64 then Int.emod n (2 ^ 64)
  else n

/-- Go's `string(i)` conversion for an integer `i`: the one-character string
of the code point `i`, or the replacement character U+FFFD when `i` is not a
valid code point (negative, beyond U+10FFFF, or a surrogate). -/
def intToString (n : Int) : String :=
  if (0 ≤ n && n < 55296) || (57343 < n && n ≤ 1114111) then
    (Char.ofNat n.toNat).toString
  else
    (Char.ofNat 65533).toString

/-- Model of `reflect.Value.Convert` within the modelled universe.  Conversion to an
identical type is the identity; conversion to the empty interface wraps the
value; integer conversions wrap around; integer-to-string reads a code
point. -/
def convertVal (v : Value) (dst : Ty) : Value :=
  if v.typeOf == dst then v
  else if dst == Ty.iface then .viface (some v)
  else
    match v, dst with
    | .vint _ n, .string => .vstring (intToString n)
    | .vint _ n, t => .vint t (wrapInt t n)
    | w, _ => w

/-- Storing a value into a slot of type `dst` (`reflect.Value.Set` on an
assignable value): setting a concrete value into an interface-typed slot
wraps it in an interface value; otherwise the value is stored as is. -/
def assignVal (v : Value) (dst : Ty) : Value :=
  if dst == Ty.iface && !(v.typeOf == Ty.iface) then .viface (some v) else v

/-- The type-level part of `reflect.FieldByName`: the first field with the
given name, with its declared type. -/
def Fields.findByName : Fields → String → Option (String × Ty)
  | .nil, _ => none
  | .cons n t rest, name =>
      if n == name then some (n, t) else Fields.findByName rest name

/-- The names of a field list, in order. -/
def Fields.names : Fields → List String
  | .nil => []
  | .cons n _ rest => n :: Fields.names rest

/-- The field list as a list of (name, type) pairs. -/
def Fields.toList : Fields → List (String × Ty)
  | .nil => []
  | .cons n t rest => (n, t) :: Fields.toList rest

mutual
/-- The zero value of a type (`reflect.Zero`). -/
def Ty.zeroVal : Ty → Value
  | .bool => .vbool false
  | .int => .vint .int 0
  | .int8 => .vint .int8 0
  | .int64 => .vint .int64 0
  | .uint => .vint .uint 0
  | .uint64 => .vint .uint64 0
  | .string => .vstring ""
  | .iface => .viface none
  | .fn => .vfunc
  | .ptr t => .vptr t none
  | .strukt fs => .vstruct fs (Fields.zeroVals fs)

/-- The zero values of a field list, in order. -/
def Fields.zeroVals : Fields → List Value
  | .nil => []
  | .cons _ t rest => Ty.zeroVal t :: Fields.zeroVals rest
end

/-- Model of `FieldByName(...).Set(v)` on the value side: write `v` (with the
interface wrap of `assignVal`) into the first field with the given name.
`fs` is the struct's field list, `vals` the current field values. -/
def setFieldByName (fs : Fields) (vals : List Value) (name : String) (v : Value) :
    List Value :=
  match fs, vals with
  | .cons n t rest, v0 :: vs =>
      if n == name then assignVal v t :: vs
      else v0 :: setFieldByName rest vs name v
  | _, vs => vs

/-- Read the declared type and current value of the first field with the
given name. -/
def fieldValByName (fs : Fields) (vals : List Value) (name : String) :
    Option (Ty × Value) :=
  match fs, vals with
  | .cons n t rest, v :: vs =>
      if n == name then some (t, v) else fieldValByName rest vs name
  | _, _ => none

/-- Shallow well-typedness of a struct value: the field values are in
one-to-one correspondence with the declared fields and each value has its
field's declared type.  Every Go struct value satisfies this by
construction. -/
def wellTypedFields : Fields → List Value → Bool
  | .nil, [] => true
  | .cons _ t rest, v :: vs => v.typeOf == t && wellTypedFields rest vs
  | _, _ => false

/-- Rendering of a type in an error message (`%s` on a `reflect.Type`).
Anonymous struct types are rendered by the single word struct. -/
def tyName : Ty → String
  | .bool => "bool"
  | .int => "int"
  | .int8 => "int8"
  | .int64 => "int64"
  | .uint => "uint"
  | .uint64 => "uint64"
  | .string => "string"
  | .iface => "interface"
  | .fn => "func()"
  | .ptr t => "*" ++ tyName t
  | .strukt _ => "struct"

/-- The reasons `safetool.ConvertSlice` can reject an element, without the
element index (the index is added by `renderConvErr`; the source formats the
index into the message text at the point of failure). -/
inductive ConvErr where
  | numBoolToString : Ty → ConvErr
  | fieldMismatch : String → Ty → Ty → ConvErr
  | noStrategy : Ty → Ty → ConvErr
  deriving DecidableEq, Repr

/-- The error messages of `safetool.ConvertSlice`, with the element index
formatted in, as built by the three `fmt.Errorf` calls in the source. -/
def renderConvErr (i : Nat) : ConvErr → String
  | .numBoolToString t =>
      "cannot convert element at index " ++ toString i ++
        ": direct conversion from numeric/bool type " ++ tyName t ++
        " to string is not supported by ConvertSlice"
  | .fieldMismatch fname s d =>
      "cannot convert element at index " ++ toString i ++
        ": struct field " ++ fname ++ " type mismatch, source type " ++
        tyName s ++ ", destination type " ++ tyName d ++ ", not assignable"
  | .noStrategy s d =>
      "cannot convert element at index " ++ toString i ++ " from type " ++
        tyName s ++ " to " ++ tyName d ++
        ": no direct conversion, assignability, or compatible struct field copy strategy found"

/-- Whether a kind falls in the numeric/bool ranges the guard of
`safetool.ConvertSlice` tests:
`(srcKind >= reflect.Int && srcKind <= reflect.Uintptr) ||
 (srcKind >= reflect.Float32 && srcKind <= reflect.Complex128) ||
 srcKind == reflect.Bool`. -/
def numBoolKind (k : Kind) : Bool :=
  (Kind.code .int ≤ k.code && k.code ≤ Kind.code .uintptr) ||
    (Kind.code .float32 ≤ k.code && k.code ≤ Kind.code .complex128) ||
    k == Kind.bool

namespace safetool

/-- The nil/deref/unwrap prefix of the per-element loop of
`safetool.ConvertSlice` (the three `continue`-with-zero checks): yields
`none` when the element must become the destination zero value — invalid
element, nil pointer or nil interface element, pointer to a nil interface,
interface holding nothing — and otherwise the fully dereferenced and
unwrapped source value. -/
def unwrapSrc (elem : Value) : Option Value :=
  match valueOf elem with
  | none => none
  | some v0 =>
    if (v0.kindOf == Kind.pointer || v0.kindOf == Kind.interface) && v0.isNilRef
    then none
    else
      let v1opt : Option Value :=
        if v0.kindOf == Kind.pointer then
          match v0 with
          | .vptr _ (some w) =>
              if w.kindOf == Kind.interface && w.isNilRef then none else some w
          | _ => none
        else some v0
      match v1opt with
      | none => none
      | some v1 =>
        if v1.kindOf == Kind.interface then
          match v1 with
          | .viface (some w) => some w
          | _ => none
        else some v1

/-- Copy the source struct fields into the destination field values by name
(the inner `for j` loop of `safetool.ConvertSlice`): a source field whose
name the destination lacks is skipped; a shared-name field is copied when
the source field type is assignable to the destination field type and is a
hard error otherwise.  `dfs` is the destination field list, the last
argument the destination field values built so far. -/
def copyFieldsSafe (dfs : Fields) : Fields → List Value → List Value →
    Except ConvErr (List Value)
  | .nil, _, acc => .ok acc
  | .cons fname fty rest, fv :: fvs, acc =>
      match Fields.findByName dfs fname with
      | none => copyFieldsSafe dfs rest fvs acc
      | some (_, dty) =>
          if AssignableTo fty dty then
            copyFieldsSafe dfs rest fvs (setFieldByName dfs acc fname fv)
          else
            .error (.fieldMismatch fname fty dty)
  | .cons _ _ _, [], acc => .ok acc

/-- The per-element conversion of `safetool.ConvertSlice`, with the failure
reason kept structured (`renderConvErr` adds the element index exactly as
the source's `fmt.Errorf` calls do). -/
def convertElemCore (destType : Ty) (elem : Value) : Except ConvErr Value :=
  match unwrapSrc elem with
  | none => .ok (Ty.zeroVal destType)
  | some srcVal =>
    if numBoolKind srcVal.kindOf && destType.kind == Kind.string then
      .error (.numBoolToString srcVal.typeOf)
    else if ConvertibleTo srcVal.typeOf destType then
      .ok (convertVal srcVal destType)
    else if AssignableTo srcVal.typeOf destType then
      .ok (assignVal srcVal destType)
    else if srcVal.kindOf == Kind.struct && destType.kind == Kind.struct then
      match srcVal, destType with
      | .vstruct sfs svs, .strukt dfs =>
          (copyFieldsSafe dfs sfs svs (Fields.zeroVals dfs)).map
            (fun out => Value.vstruct dfs out)
      | sv, dt => .error (.noStrategy sv.typeOf dt)
    else
      .error (.noStrategy srcVal.typeOf destType)

/-- The element loop of `safetool.ConvertSlice`: left to right, aborting at
the first failing element with that element's error. -/
def convertSliceLoop (destType : Ty) (i : Nat) : List Value →
    Except String (List Value)
  | [] => .ok []
  | e :: es =>
    match convertElemCore destType e with
    | .error err => .error (renderConvErr i err)
    | .ok v =>
      match convertSliceLoop destType (i + 1) es with
      | .error msg => .error msg
      | .ok rest => .ok (v :: rest)

/-- The converter `safetool.ConvertSlice`.  The Go source first checks
`reflect.TypeOf(srcSlice).Kind() != reflect.Slice`; for a generic `[]T`
argument that test can never fire, so it has no representable input here.
`none` is a nil `[]T`; `some []` is a non-nil empty slice, and the `.ok []`
result models the non-nil `[]Y{}` the source returns for it. -/
def ConvertSlice (srcSlice : Option (List Value)) (destType : Ty) :
    Except String (List Value) :=
  match srcSlice with
  | none => .error "srcSlice is nil"
  | some src =>
    if src.length == 0 then .ok []
    else convertSliceLoop destType 0 src

end safetool

/-- The outcome of a Go function that can panic: either a panic with a
message, or a normal return. -/
inductive GoResult (α : Type) where
  | panicked : String → GoResult α
  | ret : α → GoResult α
  deriving Repr

namespace tool

/-- The name of a kind as it appears in `reflect` panic messages. -/
def kindName : Kind → String
  | .invalid => "invalid"
  | .bool => "bool"
  | .int => "int"
  | .int8 => "int8"
  | .int16 => "int16"
  | .int32 => "int32"
  | .int64 => "int64"
  | .uint => "uint"
  | .uint8 => "uint8"
  | .uint16 => "uint16"
  | .uint32 => "uint32"
  | .uint64 => "uint64"
  | .uintptr => "uintptr"
  | .float32 => "float32"
  | .float64 => "float64"
  | .complex64 => "complex64"
  | .complex128 => "complex128"
  | .array => "array"
  | .chan => "chan"
  | .func => "func"
  | .interface => "interface"
  | .map => "map"
  | .pointer => "ptr"
  | .slice => "slice"
  | .string => "string"
  | .struct => "struct"
  | .unsafePointer => "unsafe.Pointer"

/-- The message of the `reflect` panic raised by calling `Type` on the zero
`reflect.Value` (what `srcVal.Type()` does after `reflect.Indirect` of a nil
pointer or of an invalid value). -/
def typePanicMsg : String := "reflect: call of reflect.Value.Type on zero Value"

/-- The message of the `reflect` panic raised by `NumField` on a non-struct
value. -/
def numFieldPanicMsg (k : Kind) : String :=
  "reflect: call of reflect.Value.NumField on " ++ kindName k ++ " Value"

/-- The message of the `reflect` panic raised by `FieldByName` on a
non-struct value. -/
def fieldByNamePanicMsg (k : Kind) : String :=
  "reflect: call of reflect.Value.FieldByName on " ++ kindName k ++ " Value"

/-- Model of `reflect.Indirect`: dereference a pointer value (a nil pointer yields
the zero `reflect.Value`, modelled `none`); any other value is returned
unchanged. -/
def indirect : Option Value → Option Value
  | none => none
  | some (.vptr _ p) => p
  | some v => some v

/-- The field-copy loop of `tool.ConvertSlice`: same name matching as the
safe variant, but a shared-name field whose source type is not assignable is
silently skipped instead of being an error. -/
def copyFieldsLoose (dfs : Fields) : Fields → List Value → List Value →
    List Value
  | .nil, _, acc => acc
  | .cons fname fty rest, fv :: fvs, acc =>
      match Fields.findByName dfs fname with
      | none => copyFieldsLoose dfs rest fvs acc
      | some (_, dty) =>
          if AssignableTo fty dty then
            copyFieldsLoose dfs rest fvs (setFieldByName dfs acc fname fv)
          else
            copyFieldsLoose dfs rest fvs acc
  | .cons _ _ _, [], acc => acc

/-- The per-element conversion of `tool.ConvertSlice` (`tool.go`):
`srcVal := reflect.Indirect(reflect.ValueOf(srcSlice[i]))`, then the
convertible / assignable / field-copy switch.  `srcVal.Type()` on an invalid
value panics; the default branch calls `srcVal.NumField()` and
`destVal.FieldByName` without checking that either side is a struct, so a
non-struct source panics, and a struct source with at least one field panics
when the destination is not a struct (with no source fields the loop body
never runs and the element becomes the destination zero value). -/
def convertElemLoose (destType : Ty) (elem : Value) : GoResult Value :=
  match indirect (valueOf elem) with
  | none => .panicked typePanicMsg
  | some srcVal =>
    if ConvertibleTo srcVal.typeOf destType then
      .ret (convertVal srcVal destType)
    else if AssignableTo srcVal.typeOf destType then
      .ret (assignVal srcVal destType)
    else
      match srcVal with
      | .vstruct sfs svs =>
          match destType with
          | .strukt dfs =>
              .ret (.vstruct dfs (copyFieldsLoose dfs sfs svs (Fields.zeroVals dfs)))
          | _ =>
              match sfs with
              | .nil => .ret (Ty.zeroVal destType)
              | .cons _ _ _ => .panicked (fieldByNamePanicMsg destType.kind)
      | _ => .panicked (numFieldPanicMsg srcVal.kindOf)

/-- The element loop of `tool.ConvertSlice`: a panic in any element aborts
the whole call. -/
def convertLoopLoose (destType : Ty) : List Value → GoResult (List Value)
  | [] => .ret []
  | e :: es =>
    match convertElemLoose destType e with
    | .panicked msg => .panicked msg
    | .ret v =>
      match convertLoopLoose destType es with
      | .panicked msg => .panicked msg
      | .ret rest => .ret (v :: rest)

/-- The converter `tool.ConvertSlice` (`tool.go`).  For a nil source it returns a nil
slice (`return nil`) — no error and no panic; for an empty source a non-nil
empty slice; otherwise the loose element loop. -/
def ConvertSlice (srcSlice : Option (List Value)) (destType : Ty) :
    GoResult (Option (List Value)) :=
  match srcSlice with
  | none => .ret none
  | some src =>
    if src.length == 0 then .ret (some [])
    else
      match convertLoopLoose destType src with
      | .panicked msg => .panicked msg
      | .ret out => .ret (some out)

end tool

/-- The shape condition under which the fallback (field-copy) branch of
`tool.ConvertSlice` panics, read off the code: a non-struct source value
makes `srcVal.NumField()` panic; a struct source with at least one field
makes `destVal.FieldByName` panic when the destination type is not a struct;
a struct source with no fields never enters the loop body (so a non-struct
destination stays at its zero value with no panic). -/
def tool.fallbackPanics (v : Value) (d : Ty) : Bool :=
  match v with
  | .vstruct .nil _ => false
  | .vstruct (.cons _ _ _) _ => !(d.kind == Kind.struct)
  | _ => true

/-- Modelled from the spec's words for the struct-to-struct field mapping
(C6): for each destination field in order, if the source has a same-named
field, its value is stored there (with the interface wrap a store performs),
otherwise the destination field keeps its zero value.  Source-only fields
are dropped by construction. -/
def structConvSpec (dfs sfs : Fields) (svs : List Value) : List Value :=
  match dfs with
  | .nil => []
  | .cons m u rest =>
      (match fieldValByName sfs svs m with
        | some (_, v) => assignVal v u
        | none => Ty.zeroVal u) :: structConvSpec rest sfs svs

/-- Generalisation of `structConvSpec` over the initial destination field
values: each destination field either receives the same-named source field's
value or keeps its current one.  (`structConvSpec dfs sfs svs` is
`mergeAcc dfs (Fields.zeroVals dfs) sfs svs`.) -/
def mergeAcc : Fields → List Value → Fields → List Value → List Value
  | .nil, acc, _, _ => acc
  | .cons m u drest, a :: as_, sfs, svs =>
      (match fieldValByName sfs svs m with
        | some (_, v) => assignVal v u
        | none => a) :: mergeAcc drest as_ sfs svs
  | .cons _ _ _, [], _, _ => []

/-! ## Helper lemmas about the element loops -/

/-- A successful safe loop preserves the element count. -/
theorem safetool.convertSliceLoop_length (d : Ty) :
    ∀ (es : List Value) (i : Nat) (out : List Value),
      safetool.convertSliceLoop d i es = .ok out → out.length = es.length := by
  intro es
  induction es with
  | nil =>
      intro i out h
      simp only [safetool.convertSliceLoop] at h
      cases h
      rfl
  | cons e es ih =>
      intro i out h
      simp only [safetool.convertSliceLoop] at h
      cases hel : safetool.convertElemCore d e with
      | error err => rw [hel] at h; cases h
      | ok v =>
          rw [hel] at h
          cases hrest : safetool.convertSliceLoop d (i + 1) es with
          | error msg => rw [hrest] at h; cases h
          | ok rest =>
              rw [hrest] at h
              cases h
              simp [ih (i + 1) rest hrest]

/-- If some element of the list fails to convert, the safe loop fails. -/
theorem safetool.convertSliceLoop_error_of_mem (d : Ty) :
    ∀ (es : List Value) (i : Nat) (e : Value), e ∈ es →
      (∃ err, safetool.convertElemCore d e = .error err) →
      ∃ msg, safetool.convertSliceLoop d i es = .error msg := by
  intro es
  induction es with
  | nil => intro i e hmem; cases hmem
  | cons hd tl ih =>
      intro i e hmem ⟨err, herr⟩
      rcases List.mem_cons.mp hmem with heq | htl
      · subst heq
        refine ⟨renderConvErr i err, ?_⟩
        simp only [safetool.convertSliceLoop, herr]
      · cases hel : safetool.convertElemCore d hd with
        | error err2 =>
            exact ⟨renderConvErr i err2, by simp only [safetool.convertSliceLoop, hel]⟩
        | ok v =>
            obtain ⟨msg, hmsg⟩ := ih (i + 1) e htl ⟨err, herr⟩
            refine ⟨msg, ?_⟩
            simp only [safetool.convertSliceLoop, hel, hmsg]

/-- If every element converts, the safe loop succeeds, with the i-th output
the conversion of the i-th input. -/
theorem safetool.convertSliceLoop_ok_of_all (d : Ty) :
    ∀ (es : List Value) (i : Nat),
      (∀ e ∈ es, ∃ v, safetool.convertElemCore d e = .ok v) →
      ∃ out, safetool.convertSliceLoop d i es = .ok out ∧
        out.length = es.length ∧
        ∀ (k : Nat) (hk : k < es.length) (hk2 : k < out.length),
          safetool.convertElemCore d es[k] = .ok out[k] := by
  intro es
  induction es with
  | nil =>
      intro i _
      exact ⟨[], rfl, rfl, by intro k hk; cases hk⟩
  | cons hd tl ih =>
      intro i hall
      obtain ⟨v, hv⟩ := hall hd (List.mem_cons_self hd tl)
      obtain ⟨out, hout, hlen, hpt⟩ :=
        ih (i + 1) (fun e he => hall e (List.mem_cons_of_mem hd he))
      refine ⟨v :: out, ?_, by simp [hlen], ?_⟩
      · simp only [safetool.convertSliceLoop, hv, hout]
      · intro k hk hk2
        cases k with
        | zero => simpa using hv
        | succ k =>
            simp only [List.getElem_cons_succ]
            exact hpt k (by simpa using hk) (by simpa using hk2)

/-- A successful loose loop preserves the element count. -/
theorem tool.convertLoopLoose_length (d : Ty) :
    ∀ (es : List Value) (out : List Value),
      tool.convertLoopLoose d es = .ret out → out.length = es.length := by
  intro es
  induction es with
  | nil =>
      intro out h
      simp only [tool.convertLoopLoose] at h
      cases h
      rfl
  | cons e es ih =>
      intro out h
      simp only [tool.convertLoopLoose] at h
      cases hel : tool.convertElemLoose d e with
      | panicked msg => rw [hel] at h; cases h
      | ret v =>
          rw [hel] at h
          cases hrest : tool.convertLoopLoose d es with
          | panicked msg => rw [hrest] at h; cases h
          | ret rest =>
              rw [hrest] at h
              cases h
              simp [ih rest hrest]

/-! ## C1 -/

/-- C1: a nil source slice is an error, never an empty-slice result.
`safetool.ConvertSlice(nil, Y)` fails with the nil-source error
`srcSlice is nil` for every destination type `Y`.  The loose
`tool.ConvertSlice`, however, returns a nil slice with no panic and no
error for a nil source (`tool.go` lines 387-388: `if srcSlice == nil
{ return nil }`), contradicting the nil-source test of `tool_test.go`
(`PanicsWithError("ConvertSlice failed: srcSlice is nil", ...)`): the code,
not the claim, is wrong, so the second conjunct evaluates the loose variant
at the failing input. -/
theorem c1_nil_source_evaluation :
    (∀ d : Ty, safetool.ConvertSlice none d = .error "srcSlice is nil") ∧
      tool.ConvertSlice none Ty.int = .ret none :=
  ⟨fun _ => rfl, rfl⟩

/-! ## C7 -/

/-- C7: an empty (zero-length, non-nil) source slice converts to the empty
non-nil destination slice with no error, for every destination type — in
both variants.  (`some []` is the Go non-nil empty slice; `.ok []` and
`.ret (some [])` model the non-nil `[]Y{}` the sources return.) -/
theorem c7_empty_slice (d : Ty) :
    safetool.ConvertSlice (some []) d = .ok [] ∧
      tool.ConvertSlice (some []) d = .ret (some []) :=
  ⟨rfl, rfl⟩

/-! ## C9 -/

/-- C9: the claim (backed by `tool_test.go`) says `tool.ConvertSlice` panics
with `ConvertSlice failed: <original message>` whenever the safe conversion
fails, in particular `ConvertSlice failed: srcSlice is nil` for a nil
source.  The code does not: `tool.ConvertSlice` never calls the safe
converter and returns a nil slice for a nil source, with no panic at all.
This theorem evaluates the code at the failing input of the test. -/
theorem c9_loose_nil_no_panic :
    tool.ConvertSlice none Ty.int64 = .ret none ∧
      ∀ msg, tool.ConvertSlice none Ty.int64 ≠ .panicked msg :=
  ⟨rfl, fun _ h => by cases h⟩

/-! ## C2 -/

/-- C2: for a non-nil source of length N, both variants either fail (error
for the safe variant, panic for the loose one) or return a destination slice
of length exactly N; an aborted call returns no partial slice (the `Except`
error and `GoResult` panic carry no list). -/
theorem c2_length_or_error (src : List Value) (d : Ty) :
    (∀ out, safetool.ConvertSlice (some src) d = .ok out →
      out.length = src.length) ∧
    (∀ r, tool.ConvertSlice (some src) d = .ret r →
      ∃ out, r = some out ∧ out.length = src.length) := by
  constructor
  · intro out h
    simp only [safetool.ConvertSlice] at h
    by_cases hlen : src.length == 0
    · rw [if_pos hlen] at h
      cases h
      have hs : src = [] := by simpa using hlen
      simp [hs]
    · rw [if_neg hlen] at h
      exact safetool.convertSliceLoop_length d src 0 out h
  · intro r h
    simp only [tool.ConvertSlice] at h
    by_cases hlen : src.length == 0
    · rw [if_pos hlen] at h
      cases h
      have hs : src = [] := by simpa using hlen
      exact ⟨[], rfl, by simp [hs]⟩
    · rw [if_neg hlen] at h
      cases hloop : tool.convertLoopLoose d src with
      | panicked msg => rw [hloop] at h; cases h
      | ret out =>
          rw [hloop] at h
          cases h
          exact ⟨out, rfl, tool.convertLoopLoose_length d src out hloop⟩

/-- Witness for C2 at a concrete input: a two-element int slice converted to
int64 keeps length 2, in both variants. -/
theorem c2_length_or_error_witness :
    ([Value.vint Ty.int64 1, Value.vint Ty.int64 2] : List Value).length =
      ([Value.vint Ty.int 1, Value.vint Ty.int 2] : List Value).length ∧
    ∃ out, (some [Value.vint Ty.int64 1, Value.vint Ty.int64 2] :
        Option (List Value)) = some out ∧
      out.length = ([Value.vint Ty.int 1, Value.vint Ty.int 2] : List Value).length := by
  refine ⟨?_, ?_⟩
  · exact (c2_length_or_error [Value.vint Ty.int 1, Value.vint Ty.int 2] Ty.int64).1
      [Value.vint Ty.int64 1, Value.vint Ty.int64 2] rfl
  · exact (c2_length_or_error [Value.vint Ty.int 1, Value.vint Ty.int 2] Ty.int64).2
      (some [Value.vint Ty.int64 1, Value.vint Ty.int64 2]) rfl

/-- Structural induction for `Fields` (the mutual-inductive recursor takes a
motive for `Ty` too; this wrapper needs none). -/
theorem Fields.inductionOn {motive : Fields → Prop} (fs : Fields)
    (nil : motive Fields.nil)
    (cons : ∀ (n : String) (t : Ty) (rest : Fields),
      motive rest → motive (Fields.cons n t rest)) :
    motive fs :=
  match fs with
  | .nil => nil
  | .cons n t rest => cons n t rest (Fields.inductionOn rest nil cons)

/-- An element that some position of a non-nil source fails to convert makes
the whole safe call fail (no partial result). -/
theorem safetool.ConvertSlice_error_of_mem (d : Ty) (src : List Value)
    (e : Value) (hmem : e ∈ src)
    (herr : ∃ err, safetool.convertElemCore d e = .error err) :
    ∃ msg, safetool.ConvertSlice (some src) d = .error msg := by
  cases src with
  | nil => cases hmem
  | cons hd tl =>
      obtain ⟨msg, hmsg⟩ :=
        safetool.convertSliceLoop_error_of_mem d (hd :: tl) 0 e hmem herr
      exact ⟨msg, by simp only [safetool.ConvertSlice, List.length_cons]; simpa using hmsg⟩

/-- An element whose unwrap hits one of the nil checks converts to the
destination zero value. -/
theorem safetool.convertElemCore_zero_of_unwrap_none (d : Ty) (e : Value)
    (h : safetool.unwrapSrc e = none) :
    safetool.convertElemCore d e = .ok (Ty.zeroVal d) := by
  simp only [safetool.convertElemCore, h]

/-- A (name, type) pair of a field list has its name among the names. -/
theorem Fields.mem_names_of_mem_toList (fs : Fields) (n : String) (t : Ty)
    (h : (n, t) ∈ fs.toList) : n ∈ fs.names := by
  induction fs using Fields.inductionOn with
  | nil => cases h
  | cons m u rest ih =>
      rcases List.mem_cons.mp h with heq | htl
      · cases heq
        exact List.mem_cons_self _ _
      · exact List.mem_cons_of_mem _ (ih htl)

/-- With pairwise-distinct field names (as Go guarantees for a struct type),
`FieldByName` finds exactly the member pair. -/
theorem Fields.findByName_of_nodup_mem (fs : Fields) (n : String) (t : Ty)
    (hnd : fs.names.Nodup) (h : (n, t) ∈ fs.toList) :
    Fields.findByName fs n = some (n, t) := by
  induction fs using Fields.inductionOn with
  | nil => cases h
  | cons m u rest ih =>
      simp only [Fields.names, List.nodup_cons] at hnd
      rcases List.mem_cons.mp h with heq | htl
      · cases heq
        simp [Fields.findByName]
      · have hne : ¬(m == n) := by
          intro hcontra
          have : m = n := by simpa using hcontra
          subst this
          exact hnd.1 (Fields.mem_names_of_mem_toList rest m t htl)
        simp only [Fields.findByName, hne, if_false, Bool.false_eq_true]
        exact ih hnd.2 htl

/-- The safe field copy fails (with a field-mismatch error) whenever the
source struct has a field whose name the destination shares with a
non-assignable type. -/
theorem safetool.copyFieldsSafe_error_of_mismatch (dfs : Fields) (sfs : Fields) :
    ∀ (svs acc : List Value) (n n2 : String) (t dty : Ty),
      wellTypedFields sfs svs = true →
      (n, t) ∈ sfs.toList →
      Fields.findByName dfs n = some (n2, dty) →
      AssignableTo t dty = false →
      ∃ fn a b, safetool.copyFieldsSafe dfs sfs svs acc =
        .error (ConvErr.fieldMismatch fn a b) := by
  induction sfs using Fields.inductionOn with
  | nil => intro svs acc n n2 t dty _ hmem; cases hmem
  | cons hn ht rest ih =>
      intro svs acc n n2 t dty hwt hmem hfind hmis
      cases svs with
      | nil => simp [wellTypedFields] at hwt
      | cons v vs =>
          simp only [wellTypedFields, Bool.and_eq_true] at hwt
          rw [show safetool.copyFieldsSafe dfs (Fields.cons hn ht rest) (v :: vs) acc =
            (match Fields.findByName dfs hn with
              | none => safetool.copyFieldsSafe dfs rest vs acc
              | some (_, dty2) =>
                  if AssignableTo ht dty2 then
                    safetool.copyFieldsSafe dfs rest vs (setFieldByName dfs acc hn v)
                  else .error (.fieldMismatch hn ht dty2)) from rfl]
          rcases List.mem_cons.mp hmem with heq | htl
          · injection heq with h1 h2
            subst h1
            subst h2
            rw [hfind]
            simp only [hmis, Bool.false_eq_true, if_false]
            exact ⟨n, t, dty, rfl⟩
          · cases hfind2 : Fields.findByName dfs hn with
            | none => exact ih vs acc n n2 t dty hwt.2 htl hfind hmis
            | some p =>
                obtain ⟨p1, p2⟩ := p
                by_cases hass : AssignableTo ht p2
                · simp only [hass, if_true]
                  exact ih vs (setFieldByName dfs acc hn v) n n2 t dty hwt.2 htl hfind hmis
                · simp only [hass, Bool.false_eq_true, if_false]
                  exact ⟨hn, ht, p2, rfl⟩

/-- The numeric/bool-to-string guard at element level: an element whose
unwrapped value has a numeric or boolean kind is rejected by
`safetool.convertElemCore` when the destination kind is string. -/
theorem safetool.convertElemCore_guard (d : Ty) (e v : Value)
    (hun : safetool.unwrapSrc e = some v)
    (hnb : numBoolKind v.kindOf = true)
    (hd : d.kind = Kind.string) :
    safetool.convertElemCore d e = .error (ConvErr.numBoolToString v.typeOf) := by
  simp only [safetool.convertElemCore, hun]
  have hc : (numBoolKind v.kindOf && d.kind == Kind.string) = true := by
    simp [hnb, hd]
  rw [if_pos hc]

/-! ## C3 -/

/-- C3 counterexample: the claim says numeric-to-string conversion never
succeeds in `ConvertSlice`, but the loose `tool.ConvertSlice` (`tool.go`)
has no such guard: converting the int 65 to a string destination succeeds
and yields the character-code string `A`. -/
theorem c3_counterexample_loose_numeric_to_string :
    tool.ConvertSlice (some [Value.vint Ty.int 65]) Ty.string =
      .ret (some [Value.vstring "A"]) := rfl

/-- C3 amended: in the safe `safetool.ConvertSlice`, any source element
whose unwrapped runtime kind is numeric or boolean is rejected with a
conversion error when the destination type has string kind, and the whole
call fails; the loose `tool.ConvertSlice` lacks the guard and converts
integers to character-code strings (see the counterexample). -/
theorem c3_safe_numeric_bool_to_string_guard (src : List Value) (d : Ty)
    (e v : Value) (hmem : e ∈ src)
    (hun : safetool.unwrapSrc e = some v)
    (hnb : numBoolKind v.kindOf = true)
    (hd : d.kind = Kind.string) :
    safetool.convertElemCore d e = .error (ConvErr.numBoolToString v.typeOf) ∧
      ∃ msg, safetool.ConvertSlice (some src) d = .error msg := by
  have helem := safetool.convertElemCore_guard d e v hun hnb hd
  exact ⟨helem, safetool.ConvertSlice_error_of_mem d src e hmem ⟨_, helem⟩⟩

/-- Witness for C3 at the concrete input `[]int{65}` with string
destination. -/
theorem c3_safe_numeric_bool_to_string_guard_witness :
    safetool.convertElemCore Ty.string (Value.vint Ty.int 65) =
        .error (ConvErr.numBoolToString Ty.int) ∧
      ∃ msg, safetool.ConvertSlice (some [Value.vint Ty.int 65]) Ty.string =
        .error msg :=
  c3_safe_numeric_bool_to_string_guard [Value.vint Ty.int 65] Ty.string
    (Value.vint Ty.int 65) (Value.vint Ty.int 65)
    (List.mem_singleton.mpr rfl) rfl rfl rfl

/-! ## C4 -/

/-- C4 counterexample: the claim says a shared-name field with a
non-assignable type makes the whole `ConvertSlice` call fail, but the loose
`tool.ConvertSlice` (`tool.go`) silently skips the mismatched field: a
struct with int field `A` converted to a struct with string field `A`
succeeds, leaving the field at its zero value. -/
theorem c4_counterexample_loose_mismatch_skipped :
    tool.ConvertSlice
        (some [Value.vstruct (Fields.cons "A" Ty.int Fields.nil) [Value.vint Ty.int 7]])
        (Ty.strukt (Fields.cons "A" Ty.string Fields.nil)) =
      .ret (some [Value.vstruct (Fields.cons "A" Ty.string Fields.nil)
        [Value.vstring ""]]) := rfl

/-- C4 amended: in the safe `safetool.ConvertSlice`, a struct-to-struct
element conversion in which some source field's name also exists in the
destination with a non-assignable type fails with a field-type-mismatch
error, and the whole call aborts with an error (no partial element); the
loose `tool.ConvertSlice` instead skips such fields silently (see the
counterexample). -/
theorem c4_safe_field_mismatch_error (sfs dfs : Fields) (svs : List Value)
    (n n2 : String) (t dty : Ty) (src : List Value)
    (hwt : wellTypedFields sfs svs = true)
    (hnd : dfs.names.Nodup)
    (hmem : (n, t) ∈ sfs.toList)
    (hfind : Fields.findByName dfs n = some (n2, dty))
    (hmis : AssignableTo t dty = false)
    (hsrc : Value.vstruct sfs svs ∈ src) :
    (∃ fn a b, safetool.convertElemCore (Ty.strukt dfs) (Value.vstruct sfs svs) =
        .error (ConvErr.fieldMismatch fn a b)) ∧
      ∃ msg, safetool.ConvertSlice (some src) (Ty.strukt dfs) = .error msg := by
  have hne : sfs ≠ dfs := by
    intro hcontra
    subst hcontra
    have hself := Fields.findByName_of_nodup_mem sfs n t hnd hmem
    rw [hfind] at hself
    simp only [Option.some.injEq, Prod.mk.injEq] at hself
    rw [hself.2] at hmis
    simp [AssignableTo] at hmis
  obtain ⟨fn, a, b, hc⟩ :=
    safetool.copyFieldsSafe_error_of_mismatch dfs sfs svs (Fields.zeroVals dfs)
      n n2 t dty hwt hmem hfind hmis
  have hun : safetool.unwrapSrc (Value.vstruct sfs svs) =
      some (Value.vstruct sfs svs) := rfl
  have hconv : ConvertibleTo (Value.vstruct sfs svs).typeOf (Ty.strukt dfs) = false := by
    simp only [ConvertibleTo, AssignableTo, Value.typeOf, Ty.isInteger]
    simp [hne]
  have hass : AssignableTo (Value.vstruct sfs svs).typeOf (Ty.strukt dfs) = false := by
    simp only [AssignableTo, Value.typeOf]
    simp [hne]
  have helem : safetool.convertElemCore (Ty.strukt dfs) (Value.vstruct sfs svs) =
      .error (ConvErr.fieldMismatch fn a b) := by
    simp only [safetool.convertElemCore, hun, hconv, hass]
    simp only [show (numBoolKind (Value.vstruct sfs svs).kindOf &&
      (Ty.strukt dfs).kind == Kind.string) = false from rfl]
    simp only [show ((Value.vstruct sfs svs).kindOf == Kind.struct &&
      (Ty.strukt dfs).kind == Kind.struct) = true from rfl]
    simp only [Bool.false_eq_true, if_false, if_true]
    rw [hc]
    rfl
  exact ⟨⟨fn, a, b, helem⟩,
    safetool.ConvertSlice_error_of_mem _ src _ hsrc ⟨_, helem⟩⟩

/-- Witness for C4 at the concrete input of the counterexample: source
struct with int field `A`, destination struct with string field `A`. -/
theorem c4_safe_field_mismatch_error_witness :
    (∃ fn a b, safetool.convertElemCore
        (Ty.strukt (Fields.cons "A" Ty.string Fields.nil))
        (Value.vstruct (Fields.cons "A" Ty.int Fields.nil) [Value.vint Ty.int 7]) =
        .error (ConvErr.fieldMismatch fn a b)) ∧
      ∃ msg, safetool.ConvertSlice
        (some [Value.vstruct (Fields.cons "A" Ty.int Fields.nil) [Value.vint Ty.int 7]])
        (Ty.strukt (Fields.cons "A" Ty.string Fields.nil)) = .error msg :=
  c4_safe_field_mismatch_error (Fields.cons "A" Ty.int Fields.nil)
    (Fields.cons "A" Ty.string Fields.nil) [Value.vint Ty.int 7]
    "A" "A" Ty.int Ty.string
    [Value.vstruct (Fields.cons "A" Ty.int Fields.nil) [Value.vint Ty.int 7]]
    rfl (by simp [Fields.names]) (List.mem_singleton.mpr rfl) rfl rfl
    (List.mem_singleton.mpr rfl)

/-! ## C5 -/

/-- C5 counterexample: the claim says a nil element amid populated elements
converts to the destination zero value with no error in `ConvertSlice`, but
the loose `tool.ConvertSlice` (`tool.go`) calls `srcVal.Type()` on the
result of `reflect.Indirect` of a nil pointer, which is the zero
`reflect.Value`, so the call panics instead. -/
theorem c5_counterexample_loose_nil_element :
    tool.ConvertSlice
        (some [Value.vptr (Ty.strukt (Fields.cons "A" Ty.int Fields.nil))
            (some (Value.vstruct (Fields.cons "A" Ty.int Fields.nil) [Value.vint Ty.int 1])),
          Value.vptr (Ty.strukt (Fields.cons "A" Ty.int Fields.nil)) none])
        (Ty.strukt (Fields.cons "A" Ty.int Fields.nil)) =
      .panicked tool.typePanicMsg := rfl

/-- C5 amended: in the safe `safetool.ConvertSlice`, whenever the populated
(non-nil) elements of a non-nil source all convert, the whole call succeeds
with no error, the output has the source's length, every element is the
per-element conversion of its source element, and every nil element (one
whose nil/deref/unwrap prefix `unwrapSrc` yields nothing) becomes the
destination type's zero value at its index; the loose `tool.ConvertSlice`
panics on nil elements instead (see the counterexample). -/
theorem c5_safe_nil_elements_zeroed (src : List Value) (d : Ty)
    (hpop : ∀ e ∈ src, safetool.unwrapSrc e ≠ none →
      ∃ v, safetool.convertElemCore d e = .ok v) :
    ∃ out, safetool.ConvertSlice (some src) d = .ok out ∧
      out.length = src.length ∧
      (∀ (k : Nat) (hk : k < src.length) (hk2 : k < out.length),
        safetool.convertElemCore d src[k] = .ok out[k]) ∧
      (∀ (k : Nat) (hk : k < src.length) (hk2 : k < out.length),
        safetool.unwrapSrc src[k] = none → out[k] = Ty.zeroVal d) := by
  have hall : ∀ e ∈ src, ∃ v, safetool.convertElemCore d e = .ok v := by
    intro e he
    by_cases hu : safetool.unwrapSrc e = none
    · exact ⟨_, safetool.convertElemCore_zero_of_unwrap_none d e hu⟩
    · exact hpop e he hu
  cases src with
  | nil =>
      refine ⟨[], rfl, rfl, ?_, ?_⟩ <;> · intro k hk; cases hk
  | cons hd tl =>
      obtain ⟨out, hout, hlen, hpt⟩ :=
        safetool.convertSliceLoop_ok_of_all d (hd :: tl) 0 hall
      refine ⟨out, ?_, hlen, hpt, ?_⟩
      · simp only [safetool.ConvertSlice, List.length_cons]
        rw [if_neg (by simp)]
        exact hout
      · intro k hk hk2 hnil
        have h1 := hpt k hk hk2
        have h2 := safetool.convertElemCore_zero_of_unwrap_none d
          ((hd :: tl)[k]) hnil
        rw [h1] at h2
        exact Except.ok.inj h2

/-- Witness for C5 at a concrete input: an interface slice holding the int 5
and a nil interface, converted to int64. -/
theorem c5_safe_nil_elements_zeroed_witness :
    ∃ out, safetool.ConvertSlice
        (some [Value.viface (some (Value.vint Ty.int 5)), Value.viface none])
        Ty.int64 = .ok out ∧
      out.length = ([Value.viface (some (Value.vint Ty.int 5)),
        Value.viface none] : List Value).length ∧
      (∀ (k : Nat)
        (hk : k < ([Value.viface (some (Value.vint Ty.int 5)),
          Value.viface none] : List Value).length) (hk2 : k < out.length),
        safetool.convertElemCore Ty.int64
          ([Value.viface (some (Value.vint Ty.int 5)), Value.viface none] :
            List Value)[k] = .ok out[k]) ∧
      (∀ (k : Nat)
        (hk : k < ([Value.viface (some (Value.vint Ty.int 5)),
          Value.viface none] : List Value).length) (hk2 : k < out.length),
        safetool.unwrapSrc
          ([Value.viface (some (Value.vint Ty.int 5)), Value.viface none] :
            List Value)[k] = none → out[k] = Ty.zeroVal Ty.int64) :=
  c5_safe_nil_elements_zeroed
    [Value.viface (some (Value.vint Ty.int 5)), Value.viface none] Ty.int64
    (by
      intro e he hne
      rcases List.mem_cons.mp he with rfl | he2
      · exact ⟨Value.vint Ty.int64 5, rfl⟩
      · rcases List.mem_cons.mp he2 with rfl | he3
        · exact ⟨Ty.zeroVal Ty.int64, rfl⟩
        · cases he3)

/-! ## C8 -/

/-- A struct-typed element is its own unwrap (it is no pointer and no
interface, so the nil/deref/unwrap prefix leaves it alone). -/
theorem safetool.unwrapSrc_of_typeOf_strukt (fs : Fields) (e : Value)
    (h : e.typeOf = Ty.strukt fs) : safetool.unwrapSrc e = some e := by
  cases e with
  | vbool b => rfl
  | vint t n =>
      simp only [Value.typeOf] at h
      subst h
      rfl
  | vstring s => rfl
  | vptr t p => simp [Value.typeOf] at h
  | viface o => simp [Value.typeOf] at h
  | vstruct fs2 vs => rfl
  | vfunc => rfl

/-- Converting an element to its own type is the identity for the safe
per-element conversion (the convertible branch with an identical type). -/
theorem safetool.convertElemCore_identity (fs : Fields) (e : Value)
    (h : e.typeOf = Ty.strukt fs) :
    safetool.convertElemCore (Ty.strukt fs) e = .ok e := by
  have hun := safetool.unwrapSrc_of_typeOf_strukt fs e h
  have hguard : (numBoolKind e.kindOf && (Ty.strukt fs).kind == Kind.string) = false := by
    simp [Ty.kind]
  have hconv : ConvertibleTo e.typeOf (Ty.strukt fs) = true := by
    rw [h]
    simp [ConvertibleTo, AssignableTo]
  have hcv : convertVal e (Ty.strukt fs) = e := by
    simp [convertVal, h]
  simp only [safetool.convertElemCore, hun, hguard, hconv, Bool.false_eq_true,
    if_false, if_true, hcv]

/-- If every element converts to itself, the safe loop is the identity. -/
theorem safetool.convertSliceLoop_id (d : Ty) :
    ∀ (es : List Value) (i : Nat),
      (∀ e ∈ es, safetool.convertElemCore d e = .ok e) →
      safetool.convertSliceLoop d i es = .ok es := by
  intro es
  induction es with
  | nil => intro i _; rfl
  | cons hd tl ih =>
      intro i hall
      have h1 := hall hd (List.mem_cons_self hd tl)
      have h2 := ih (i + 1) (fun e he => hall e (List.mem_cons_of_mem hd he))
      simp only [safetool.convertSliceLoop, h1, h2]

/-- Loose variant of `unwrapSrc_of_typeOf_strukt`:
`reflect.Indirect(reflect.ValueOf(e))` is `e` itself for a struct-typed
element. -/
theorem tool.indirect_valueOf_of_typeOf_strukt (fs : Fields) (e : Value)
    (h : e.typeOf = Ty.strukt fs) : tool.indirect (valueOf e) = some e := by
  cases e with
  | vbool b => rfl
  | vint t n => rfl
  | vstring s => rfl
  | vptr t p => simp [Value.typeOf] at h
  | viface o => simp [Value.typeOf] at h
  | vstruct fs2 vs => rfl
  | vfunc => rfl

/-- Converting an element to its own type is the identity for the loose
per-element conversion as well. -/
theorem tool.convertElemLoose_identity (fs : Fields) (e : Value)
    (h : e.typeOf = Ty.strukt fs) :
    tool.convertElemLoose (Ty.strukt fs) e = .ret e := by
  have hind := tool.indirect_valueOf_of_typeOf_strukt fs e h
  have hconv : ConvertibleTo e.typeOf (Ty.strukt fs) = true := by
    rw [h]
    simp [ConvertibleTo, AssignableTo]
  have hcv : convertVal e (Ty.strukt fs) = e := by
    simp [convertVal, h]
  simp only [tool.convertElemLoose, hind, hconv, if_true, hcv]

/-- If every element converts to itself, the loose loop is the identity. -/
theorem tool.convertLoopLoose_id (d : Ty) :
    ∀ es : List Value,
      (∀ e ∈ es, tool.convertElemLoose d e = .ret e) →
      tool.convertLoopLoose d es = .ret es := by
  intro es
  induction es with
  | nil => intro _; rfl
  | cons hd tl ih =>
      intro hall
      have h1 := hall hd (List.mem_cons_self hd tl)
      have h2 := ih (fun e he => hall e (List.mem_cons_of_mem hd he))
      simp only [tool.convertLoopLoose, h1, h2]

/-- C8, identity law: a non-nil source of record (struct) values of type R,
converted with an R-typed sample, succeeds and returns a sequence equal to
the source — in both variants. -/
theorem c8_identity (src : List Value) (fs : Fields)
    (h : ∀ e ∈ src, e.typeOf = Ty.strukt fs) :
    safetool.ConvertSlice (some src) (Ty.strukt fs) = .ok src ∧
      tool.ConvertSlice (some src) (Ty.strukt fs) = .ret (some src) := by
  constructor
  · cases src with
    | nil => rfl
    | cons hd tl =>
        have hloop := safetool.convertSliceLoop_id (Ty.strukt fs) (hd :: tl) 0
          (fun e he => safetool.convertElemCore_identity fs e (h e he))
        simp only [safetool.ConvertSlice, List.length_cons]
        rw [if_neg (by simp)]
        exact hloop
  · cases src with
    | nil => rfl
    | cons hd tl =>
        have hloop := tool.convertLoopLoose_id (Ty.strukt fs) (hd :: tl)
          (fun e he => tool.convertElemLoose_identity fs e (h e he))
        simp only [tool.ConvertSlice, List.length_cons]
        rw [if_neg (by simp)]
        rw [hloop]

/-- Witness for C8 at a concrete input: two records with fields
`A int, B string`. -/
theorem c8_identity_witness :
    safetool.ConvertSlice
        (some [Value.vstruct (Fields.cons "A" Ty.int (Fields.cons "B" Ty.string Fields.nil))
            [Value.vint Ty.int 1, Value.vstring "one"],
          Value.vstruct (Fields.cons "A" Ty.int (Fields.cons "B" Ty.string Fields.nil))
            [Value.vint Ty.int 2, Value.vstring "two"]])
        (Ty.strukt (Fields.cons "A" Ty.int (Fields.cons "B" Ty.string Fields.nil))) =
      .ok [Value.vstruct (Fields.cons "A" Ty.int (Fields.cons "B" Ty.string Fields.nil))
            [Value.vint Ty.int 1, Value.vstring "one"],
          Value.vstruct (Fields.cons "A" Ty.int (Fields.cons "B" Ty.string Fields.nil))
            [Value.vint Ty.int 2, Value.vstring "two"]] ∧
      tool.ConvertSlice
        (some [Value.vstruct (Fields.cons "A" Ty.int (Fields.cons "B" Ty.string Fields.nil))
            [Value.vint Ty.int 1, Value.vstring "one"],
          Value.vstruct (Fields.cons "A" Ty.int (Fields.cons "B" Ty.string Fields.nil))
            [Value.vint Ty.int 2, Value.vstring "two"]])
        (Ty.strukt (Fields.cons "A" Ty.int (Fields.cons "B" Ty.string Fields.nil))) =
      .ret (some [Value.vstruct (Fields.cons "A" Ty.int (Fields.cons "B" Ty.string Fields.nil))
            [Value.vint Ty.int 1, Value.vstring "one"],
          Value.vstruct (Fields.cons "A" Ty.int (Fields.cons "B" Ty.string Fields.nil))
            [Value.vint Ty.int 2, Value.vstring "two"]]) :=
  c8_identity
    [Value.vstruct (Fields.cons "A" Ty.int (Fields.cons "B" Ty.string Fields.nil))
        [Value.vint Ty.int 1, Value.vstring "one"],
      Value.vstruct (Fields.cons "A" Ty.int (Fields.cons "B" Ty.string Fields.nil))
        [Value.vint Ty.int 2, Value.vstring "two"]]
    (Fields.cons "A" Ty.int (Fields.cons "B" Ty.string Fields.nil))
    (by
      intro e he
      rcases List.mem_cons.mp he with rfl | he2
      · rfl
      · rcases List.mem_cons.mp he2 with rfl | he3
        · rfl
        · cases he3)

/-! ## C10 -/

/-- A value that is neither pointer- nor interface-kinded is its own unwrap
in the safe variant. -/
theorem safetool.unwrapSrc_of_plain (v : Value)
    (hptr : v.kindOf ≠ Kind.pointer) (hifc : v.kindOf ≠ Kind.interface) :
    safetool.unwrapSrc v = some v := by
  cases v with
  | vbool b => rfl
  | vstring s => rfl
  | vstruct fs vs => rfl
  | vfunc => rfl
  | vptr t p => exact absurd rfl hptr
  | viface o => exact absurd rfl hifc
  | vint t n =>
      cases t with
      | ptr u => exact absurd rfl hptr
      | iface => exact absurd rfl hifc
      | bool => rfl
      | int => rfl
      | int8 => rfl
      | int64 => rfl
      | uint => rfl
      | uint64 => rfl
      | string => rfl
      | fn => rfl
      | strukt fs => rfl

/-- A value that is neither a pointer nor an interface passes through
`reflect.Indirect(reflect.ValueOf(...))` unchanged in the loose variant. -/
theorem tool.indirect_valueOf_of_plain (v : Value)
    (hptr : v.kindOf ≠ Kind.pointer) (hifc : v.kindOf ≠ Kind.interface) :
    tool.indirect (valueOf v) = some v := by
  cases v with
  | vbool b => rfl
  | vstring s => rfl
  | vstruct fs vs => rfl
  | vfunc => rfl
  | vint t n => rfl
  | vptr t p => exact absurd rfl hptr
  | viface o => exact absurd rfl hifc

/-- C10 counterexample: the claim says that whenever the fallback is entered
with a non-struct element type or non-struct destination type, the loose
call panics.  A source element that is a struct with no fields and an int
destination enters the fallback (neither convertible nor assignable), yet
`NumField()` is 0, the loop body never runs, and the call returns the
destination zero value with no panic and no error. -/
theorem c10_counterexample_empty_struct_source :
    tool.ConvertSlice (some [Value.vstruct Fields.nil []]) Ty.int =
      .ret (some [Value.vint Ty.int 0]) := rfl

/-- C10 amended: in the loose `tool.ConvertSlice`, an element that (without
pointer/interface indirection) is neither convertible nor assignable to the
destination type enters the field-copy fallback with no struct check; unless
the element is a zero-field struct, a non-struct element or a non-struct
destination makes the call panic with a reflection panic
(`NumField`/`FieldByName` on a non-struct value), while the safe
`safetool.ConvertSlice` returns a descriptive conversion error on the same
input. -/
theorem c10_loose_fallback_reflection_panics (v : Value) (d : Ty)
    (hptr : v.kindOf ≠ Kind.pointer) (hifc : v.kindOf ≠ Kind.interface)
    (hconv : ConvertibleTo v.typeOf d = false)
    (hass : AssignableTo v.typeOf d = false)
    (hfb : tool.fallbackPanics v d = true) :
    (∃ msg, tool.ConvertSlice (some [v]) d = .panicked msg) ∧
      ∃ msg2, safetool.ConvertSlice (some [v]) d = .error msg2 := by
  have hind := tool.indirect_valueOf_of_plain v hptr hifc
  have hel : ∃ msg, tool.convertElemLoose d v = .panicked msg := by
    simp only [tool.convertElemLoose, hind, hconv, hass, Bool.false_eq_true,
      if_false]
    cases v with
    | vstruct sfs svs =>
        cases sfs with
        | nil => simp [tool.fallbackPanics] at hfb
        | cons n t rest =>
            cases d with
            | strukt dfs => simp [tool.fallbackPanics, Ty.kind] at hfb
            | bool => exact ⟨_, rfl⟩
            | int => exact ⟨_, rfl⟩
            | int8 => exact ⟨_, rfl⟩
            | int64 => exact ⟨_, rfl⟩
            | uint => exact ⟨_, rfl⟩
            | uint64 => exact ⟨_, rfl⟩
            | string => exact ⟨_, rfl⟩
            | iface => exact ⟨_, rfl⟩
            | fn => exact ⟨_, rfl⟩
            | ptr u => exact ⟨_, rfl⟩
    | vbool b => exact ⟨_, rfl⟩
    | vint t n => exact ⟨_, rfl⟩
    | vstring s => exact ⟨_, rfl⟩
    | vptr t p => exact absurd rfl hptr
    | viface o => exact absurd rfl hifc
    | vfunc => exact ⟨_, rfl⟩
  have hun := safetool.unwrapSrc_of_plain v hptr hifc
  have herr : ∃ err, safetool.convertElemCore d v = .error err := by
    by_cases hg : (numBoolKind v.kindOf && d.kind == Kind.string) = true
    · exact ⟨_, by simp only [safetool.convertElemCore, hun]; rw [if_pos hg]⟩
    · have hg' : (numBoolKind v.kindOf && d.kind == Kind.string) = false := by
        simpa using hg
      by_cases hs : (v.kindOf == Kind.struct && d.kind == Kind.struct) = true
      · have hdk : d.kind == Kind.struct := (Bool.and_eq_true _ _).mp hs |>.2
        obtain ⟨dfs, rfl⟩ : ∃ dfs, d = Ty.strukt dfs := by
          cases d with
          | strukt dfs => exact ⟨dfs, rfl⟩
          | bool => simp [Ty.kind] at hdk
          | int => simp [Ty.kind] at hdk
          | int8 => simp [Ty.kind] at hdk
          | int64 => simp [Ty.kind] at hdk
          | uint => simp [Ty.kind] at hdk
          | uint64 => simp [Ty.kind] at hdk
          | string => simp [Ty.kind] at hdk
          | iface => simp [Ty.kind] at hdk
          | fn => simp [Ty.kind] at hdk
          | ptr u => simp [Ty.kind] at hdk
        simp only [safetool.convertElemCore, hun, hg', hconv, hass,
          Bool.false_eq_true, if_false]
        rw [if_pos hs]
        cases v with
        | vstruct sfs svs =>
            cases sfs with
            | nil => simp [tool.fallbackPanics] at hfb
            | cons n t rest => simp [tool.fallbackPanics, Ty.kind] at hfb
        | vbool b => simp [Value.kindOf, Value.typeOf, Ty.kind] at hs
        | vstring s => simp [Value.kindOf, Value.typeOf, Ty.kind] at hs
        | vfunc => simp [Value.kindOf, Value.typeOf, Ty.kind] at hs
        | vptr t p => exact absurd rfl hptr
        | viface o => exact absurd rfl hifc
        | vint t n => exact ⟨_, rfl⟩
      · have hs' : (v.kindOf == Kind.struct && d.kind == Kind.struct) = false := by
          simpa using hs
        exact ⟨ConvErr.noStrategy v.typeOf d, by
          simp only [safetool.convertElemCore, hun, hg', hconv, hass, hs',
            Bool.false_eq_true, if_false]⟩
  obtain ⟨msg, hmsg⟩ := hel
  refine ⟨⟨msg, ?_⟩, safetool.ConvertSlice_error_of_mem d [v] v
    (List.mem_singleton.mpr rfl) herr⟩
  simp only [tool.ConvertSlice, List.length_singleton]
  rw [if_neg (by simp)]
  simp only [tool.convertLoopLoose, hmsg]

/-- Witness for C10 at a concrete input: the int 1 converted with a
struct-typed destination sample. -/
theorem c10_loose_fallback_reflection_panics_witness :
    (∃ msg, tool.ConvertSlice (some [Value.vint Ty.int 1])
        (Ty.strukt (Fields.cons "A" Ty.int Fields.nil)) = .panicked msg) ∧
      ∃ msg2, safetool.ConvertSlice (some [Value.vint Ty.int 1])
        (Ty.strukt (Fields.cons "A" Ty.int Fields.nil)) = .error msg2 :=
  c10_loose_fallback_reflection_panics (Value.vint Ty.int 1)
    (Ty.strukt (Fields.cons "A" Ty.int Fields.nil))
    (by decide) (by decide) rfl rfl rfl

/-! ## C6 -/

/-- Storing a value of exactly the slot's type is the identity (no interface
wrap happens). -/
theorem assignVal_of_typeOf_eq (v : Value) (u : Ty) (h : v.typeOf = u) :
    assignVal v u = v := by
  simp only [assignVal, ← h]
  by_cases hi : v.typeOf == Ty.iface
  · simp [hi]
  · simp [hi]

/-- A name `FieldByName` does not find is not among the field names. -/
theorem Fields.not_mem_names_of_findByName_eq_none (fs : Fields) (n : String)
    (h : Fields.findByName fs n = none) : n ∉ fs.names := by
  induction fs using Fields.inductionOn with
  | nil => simp [Fields.names]
  | cons m u rest ih =>
      simp only [Fields.findByName] at h
      by_cases hmn : (m == n) = true
      · rw [if_pos hmn] at h
        cases h
      · rw [if_neg hmn] at h
        simp only [Fields.names, List.mem_cons]
        rintro (rfl | hmem)
        · simp at hmn
        · exact ih h hmem

/-- Looking up a field value by an absent name yields nothing. -/
theorem fieldValByName_eq_none_of_not_mem (fs : Fields) (n : String) :
    ∀ vals : List Value, n ∉ fs.names → fieldValByName fs vals n = none := by
  induction fs using Fields.inductionOn with
  | nil => intro vals _; rfl
  | cons m u rest ih =>
      intro vals hn
      simp only [Fields.names, List.mem_cons, not_or] at hn
      cases vals with
      | nil => rfl
      | cons v vs =>
          have hmn : ¬((m == n) = true) := by
            simp only [beq_iff_eq]
            exact fun hc => hn.1 hc.symm
          simp only [fieldValByName]
          rw [if_neg hmn]
          exact ih vs hn.2

/-- Dropping a source field whose name the destination lacks does not change
the merged result. -/
theorem mergeAcc_cons_not_mem (n : String) (t : Ty) (v : Value) :
    ∀ (dfs : Fields) (acc : List Value) (sfs : Fields) (svs : List Value),
      n ∉ dfs.names →
      mergeAcc dfs acc (Fields.cons n t sfs) (v :: svs) =
        mergeAcc dfs acc sfs svs := by
  intro dfs
  induction dfs using Fields.inductionOn with
  | nil => intro acc sfs svs _; rfl
  | cons m u drest ih =>
      intro acc sfs svs hn
      simp only [Fields.names, List.mem_cons, not_or] at hn
      cases acc with
      | nil => rfl
      | cons a as_ =>
          have hnm : ¬((n == m) = true) := by
            simp only [beq_iff_eq]
            exact fun hc => hn.1 hc
          simp only [mergeAcc, fieldValByName]
          rw [if_neg hnm]
          rw [ih as_ sfs svs hn.2]

/-- Writing the source head field into the accumulator first, then merging
the source tail, equals merging with the head still present — provided the
source tail does not reuse the head's name and the destination names are
distinct.  The head's name must be found assignable in the destination for
the write to be the one `copyFieldsSafe`/`copyFieldsLoose` performs. -/
theorem mergeAcc_setField (n : String) (t : Ty) (v : Value) :
    ∀ (dfs : Fields) (acc : List Value) (sfs : Fields) (svs : List Value),
      dfs.names.Nodup →
      n ∉ sfs.names →
      mergeAcc dfs (setFieldByName dfs acc n v) sfs svs =
        mergeAcc dfs acc (Fields.cons n t sfs) (v :: svs) := by
  intro dfs
  induction dfs using Fields.inductionOn with
  | nil =>
      intro acc sfs svs _ _
      rfl
  | cons m u drest ih =>
      intro acc sfs svs hnd hns
      simp only [Fields.names, List.nodup_cons] at hnd
      cases acc with
      | nil => rfl
      | cons a as_ =>
          simp only [setFieldByName]
          by_cases hmn : (m == n) = true
          · have hm : m = n := by simpa using hmn
            subst hm
            rw [if_pos hmn]
            simp only [mergeAcc]
            rw [fieldValByName_eq_none_of_not_mem sfs m svs hns]
            rw [show fieldValByName (Fields.cons m t sfs) (v :: svs) m = some (t, v) from by
              simp [fieldValByName]]
            rw [mergeAcc_cons_not_mem m t v drest as_ sfs svs hnd.1]
          · rw [if_neg hmn]
            have hnm : ¬((n == m) = true) := by
              simp only [beq_iff_eq]
              intro hc
              exact hmn (by simp only [beq_iff_eq]; exact hc.symm)
            simp only [mergeAcc]
            rw [show fieldValByName (Fields.cons n t sfs) (v :: svs) m =
              fieldValByName sfs svs m from by
              simp only [fieldValByName]
              rw [if_neg hnm]]
            rw [ih as_ sfs svs hnd.2 hns]

/-- Merging an empty source leaves the accumulator unchanged. -/
theorem mergeAcc_nil_src :
    ∀ (dfs : Fields) (acc : List Value) (svs : List Value),
      mergeAcc dfs acc Fields.nil svs = acc := by
  intro dfs
  induction dfs using Fields.inductionOn with
  | nil => intro acc svs; rfl
  | cons m u drest ih =>
      intro acc svs
      cases acc with
      | nil => rfl
      | cons a as_ =>
          simp only [mergeAcc, fieldValByName]
          rw [ih as_ svs]

/-- When every shared-name field is assignable, the safe field copy succeeds
and computes the merge of the source fields into the zero-initialised (or
given) destination fields. -/
theorem safetool.copyFieldsSafe_ok (dfs : Fields) (hdnd : dfs.names.Nodup) :
    ∀ (sfs : Fields) (svs acc : List Value),
      wellTypedFields sfs svs = true →
      sfs.names.Nodup →
      (∀ (n : String) (t : Ty) (n2 : String) (dty : Ty), (n, t) ∈ sfs.toList →
        Fields.findByName dfs n = some (n2, dty) → AssignableTo t dty = true) →
      safetool.copyFieldsSafe dfs sfs svs acc = .ok (mergeAcc dfs acc sfs svs) := by
  intro sfs
  induction sfs using Fields.inductionOn with
  | nil =>
      intro svs acc _ _ _
      rw [mergeAcc_nil_src dfs acc svs]
      rfl
  | cons n t rest ih =>
      intro svs acc hwt hnd hsh
      cases svs with
      | nil => simp [wellTypedFields] at hwt
      | cons v vs =>
          simp only [wellTypedFields, Bool.and_eq_true] at hwt
          simp only [Fields.names, List.nodup_cons] at hnd
          rw [show safetool.copyFieldsSafe dfs (Fields.cons n t rest) (v :: vs) acc =
            (match Fields.findByName dfs n with
              | none => safetool.copyFieldsSafe dfs rest vs acc
              | some (_, dty2) =>
                  if AssignableTo t dty2 then
                    safetool.copyFieldsSafe dfs rest vs (setFieldByName dfs acc n v)
                  else .error (.fieldMismatch n t dty2)) from rfl]
          cases hfind : Fields.findByName dfs n with
          | none =>
              rw [ih vs acc hwt.2 hnd.2
                (fun n3 t3 n4 dty4 hm hf => hsh n3 t3 n4 dty4 (List.mem_cons_of_mem _ hm) hf)]
              rw [show mergeAcc dfs acc (Fields.cons n t rest) (v :: vs) =
                mergeAcc dfs acc rest vs from
                (mergeAcc_cons_not_mem n t v dfs acc rest vs
                  (Fields.not_mem_names_of_findByName_eq_none dfs n hfind))]
          | some p =>
              obtain ⟨n2, dty⟩ := p
              show (if AssignableTo t dty = true then
                  safetool.copyFieldsSafe dfs rest vs (setFieldByName dfs acc n v)
                else Except.error (ConvErr.fieldMismatch n t dty)) =
                Except.ok (mergeAcc dfs acc (Fields.cons n t rest) (v :: vs))
              rw [if_pos (hsh n t n2 dty (List.mem_cons_self _ _) hfind)]
              rw [ih vs (setFieldByName dfs acc n v) hwt.2 hnd.2
                (fun n3 t3 n4 dty4 hm hf => hsh n3 t3 n4 dty4 (List.mem_cons_of_mem _ hm) hf)]
              rw [mergeAcc_setField n t v dfs acc rest vs hdnd hnd.1]

/-- The spec-side field mapping is the merge into the zero-valued
destination fields. -/
theorem structConvSpec_eq_mergeAcc :
    ∀ (dfs sfs : Fields) (svs : List Value),
      structConvSpec dfs sfs svs = mergeAcc dfs (Fields.zeroVals dfs) sfs svs := by
  intro dfs
  induction dfs using Fields.inductionOn with
  | nil => intro sfs svs; rfl
  | cons m u drest ih =>
      intro sfs svs
      simp only [structConvSpec, Fields.zeroVals, mergeAcc]
      rw [ih sfs svs]

/-- Dropping a source field whose name the destination lacks does not change
the spec-side field mapping. -/
theorem structConvSpec_cons_not_mem (n : String) (t : Ty) (v : Value) :
    ∀ (dfs : Fields) (sfs : Fields) (svs : List Value),
      n ∉ dfs.names →
      structConvSpec dfs (Fields.cons n t sfs) (v :: svs) =
        structConvSpec dfs sfs svs := by
  intro dfs
  induction dfs using Fields.inductionOn with
  | nil => intro sfs svs _; rfl
  | cons m u drest ih =>
      intro sfs svs hn
      simp only [Fields.names, List.mem_cons, not_or] at hn
      have hnm : ¬((n == m) = true) := by
        simp only [beq_iff_eq]
        exact fun hc => hn.1 hc
      simp only [structConvSpec, fieldValByName]
      rw [if_neg hnm]
      rw [ih sfs svs hn.2]

/-- On identical struct types (with distinct field names and well-typed
field values), the spec-side field mapping is the identity. -/
theorem structConvSpec_id :
    ∀ (sfs : Fields) (svs : List Value),
      sfs.names.Nodup → wellTypedFields sfs svs = true →
      structConvSpec sfs sfs svs = svs := by
  intro sfs
  induction sfs using Fields.inductionOn with
  | nil =>
      intro svs _ hwt
      cases svs with
      | nil => rfl
      | cons v vs => simp [wellTypedFields] at hwt
  | cons m u rest ih =>
      intro svs hnd hwt
      cases svs with
      | nil => simp [wellTypedFields] at hwt
      | cons v vs =>
          simp only [wellTypedFields, Bool.and_eq_true] at hwt
          simp only [Fields.names, List.nodup_cons] at hnd
          simp only [structConvSpec]
          rw [show fieldValByName (Fields.cons m u rest) (v :: vs) m = some (u, v) from by
            simp [fieldValByName]]
          show assignVal v u :: structConvSpec rest (Fields.cons m u rest) (v :: vs) =
            v :: vs
          rw [assignVal_of_typeOf_eq v u (by simpa using hwt.1)]
          rw [structConvSpec_cons_not_mem m u v rest rest vs hnd.1]
          rw [ih vs hnd.2 hwt.2]

/-- When every shared-name field is assignable, the loose field copy
computes the same merge as the safe one (no mismatch arm is taken). -/
theorem tool.copyFieldsLoose_eq_mergeAcc (dfs : Fields) (hdnd : dfs.names.Nodup) :
    ∀ (sfs : Fields) (svs acc : List Value),
      wellTypedFields sfs svs = true →
      sfs.names.Nodup →
      (∀ (n : String) (t : Ty) (n2 : String) (dty : Ty), (n, t) ∈ sfs.toList →
        Fields.findByName dfs n = some (n2, dty) → AssignableTo t dty = true) →
      tool.copyFieldsLoose dfs sfs svs acc = mergeAcc dfs acc sfs svs := by
  intro sfs
  induction sfs using Fields.inductionOn with
  | nil =>
      intro svs acc _ _ _
      rw [mergeAcc_nil_src dfs acc svs]
      rfl
  | cons n t rest ih =>
      intro svs acc hwt hnd hsh
      cases svs with
      | nil => simp [wellTypedFields] at hwt
      | cons v vs =>
          simp only [wellTypedFields, Bool.and_eq_true] at hwt
          simp only [Fields.names, List.nodup_cons] at hnd
          rw [show tool.copyFieldsLoose dfs (Fields.cons n t rest) (v :: vs) acc =
            (match Fields.findByName dfs n with
              | none => tool.copyFieldsLoose dfs rest vs acc
              | some (_, dty2) =>
                  if AssignableTo t dty2 then
                    tool.copyFieldsLoose dfs rest vs (setFieldByName dfs acc n v)
                  else tool.copyFieldsLoose dfs rest vs acc) from rfl]
          cases hfind : Fields.findByName dfs n with
          | none =>
              rw [ih vs acc hwt.2 hnd.2
                (fun n3 t3 n4 dty4 hm hf => hsh n3 t3 n4 dty4 (List.mem_cons_of_mem _ hm) hf)]
              rw [show mergeAcc dfs acc (Fields.cons n t rest) (v :: vs) =
                mergeAcc dfs acc rest vs from
                (mergeAcc_cons_not_mem n t v dfs acc rest vs
                  (Fields.not_mem_names_of_findByName_eq_none dfs n hfind))]
          | some p =>
              obtain ⟨n2, dty⟩ := p
              show (if AssignableTo t dty = true then
                  tool.copyFieldsLoose dfs rest vs (setFieldByName dfs acc n v)
                else tool.copyFieldsLoose dfs rest vs acc) =
                mergeAcc dfs acc (Fields.cons n t rest) (v :: vs)
              rw [if_pos (hsh n t n2 dty (List.mem_cons_self _ _) hfind)]
              rw [ih vs (setFieldByName dfs acc n v) hwt.2 hnd.2
                (fun n3 t3 n4 dty4 hm hf => hsh n3 t3 n4 dty4 (List.mem_cons_of_mem _ hm) hf)]
              rw [mergeAcc_setField n t v dfs acc rest vs hdnd hnd.1]

/-- C6: struct-to-struct element conversion in `ConvertSlice` (both the safe
and the loose variant) is exactly the spec-side name-based field mapping
`structConvSpec`: name-matched assignable fields are copied, source-only
fields are silently dropped with no error, and destination-only fields stay
at their zero value; and a one-element slice of such structs converts to the
mapped struct with no error or panic.  Hypotheses: the struct value is
well typed, the field names on both sides are pairwise distinct (Go
enforces this for struct types), and every shared-name field pair is
assignable (the claim's "differ only in their field sets"). -/
theorem c6_struct_field_mapping (sfs dfs : Fields) (svs : List Value)
    (hwt : wellTypedFields sfs svs = true)
    (hsnd : sfs.names.Nodup) (hdnd : dfs.names.Nodup)
    (hshared : ∀ (n : String) (t : Ty) (n2 : String) (dty : Ty),
      (n, t) ∈ sfs.toList → Fields.findByName dfs n = some (n2, dty) →
      AssignableTo t dty = true) :
    safetool.convertElemCore (Ty.strukt dfs) (Value.vstruct sfs svs) =
      .ok (Value.vstruct dfs (structConvSpec dfs sfs svs)) ∧
    tool.convertElemLoose (Ty.strukt dfs) (Value.vstruct sfs svs) =
      .ret (Value.vstruct dfs (structConvSpec dfs sfs svs)) ∧
    safetool.ConvertSlice (some [Value.vstruct sfs svs]) (Ty.strukt dfs) =
      .ok [Value.vstruct dfs (structConvSpec dfs sfs svs)] ∧
    tool.ConvertSlice (some [Value.vstruct sfs svs]) (Ty.strukt dfs) =
      .ret (some [Value.vstruct dfs (structConvSpec dfs sfs svs)]) := by
  have hconvass : sfs ≠ dfs →
      ConvertibleTo (Value.vstruct sfs svs).typeOf (Ty.strukt dfs) = false ∧
      AssignableTo (Value.vstruct sfs svs).typeOf (Ty.strukt dfs) = false := by
    intro heq
    constructor
    · simp only [ConvertibleTo, AssignableTo, Value.typeOf, Ty.isInteger]
      simp [heq]
    · simp only [AssignableTo, Value.typeOf]
      simp [heq]
  have helem : safetool.convertElemCore (Ty.strukt dfs) (Value.vstruct sfs svs) =
      .ok (Value.vstruct dfs (structConvSpec dfs sfs svs)) := by
    by_cases heq : sfs = dfs
    · subst heq
      rw [safetool.convertElemCore_identity sfs (Value.vstruct sfs svs) rfl]
      rw [structConvSpec_id sfs svs hsnd hwt]
    · obtain ⟨hconv, hass⟩ := hconvass heq
      have hun : safetool.unwrapSrc (Value.vstruct sfs svs) =
        some (Value.vstruct sfs svs) := rfl
      simp only [safetool.convertElemCore, hun, hconv, hass]
      simp only [show (numBoolKind (Value.vstruct sfs svs).kindOf &&
        (Ty.strukt dfs).kind == Kind.string) = false from rfl]
      simp only [show ((Value.vstruct sfs svs).kindOf == Kind.struct &&
        (Ty.strukt dfs).kind == Kind.struct) = true from rfl]
      simp only [Bool.false_eq_true, if_false, if_true]
      rw [safetool.copyFieldsSafe_ok dfs hdnd sfs svs (Fields.zeroVals dfs)
        hwt hsnd hshared]
      rw [structConvSpec_eq_mergeAcc dfs sfs svs]
      rfl
  have hloose : tool.convertElemLoose (Ty.strukt dfs) (Value.vstruct sfs svs) =
      .ret (Value.vstruct dfs (structConvSpec dfs sfs svs)) := by
    by_cases heq : sfs = dfs
    · subst heq
      rw [tool.convertElemLoose_identity sfs (Value.vstruct sfs svs) rfl]
      rw [structConvSpec_id sfs svs hsnd hwt]
    · obtain ⟨hconv, hass⟩ := hconvass heq
      have hind : tool.indirect (valueOf (Value.vstruct sfs svs)) =
        some (Value.vstruct sfs svs) := rfl
      simp only [tool.convertElemLoose, hind, hconv, hass, Bool.false_eq_true,
        if_false]
      rw [tool.copyFieldsLoose_eq_mergeAcc dfs hdnd sfs svs (Fields.zeroVals dfs)
        hwt hsnd hshared]
      rw [structConvSpec_eq_mergeAcc dfs sfs svs]
  refine ⟨helem, hloose, ?_, ?_⟩
  · simp only [safetool.ConvertSlice, List.length_singleton]
    rw [if_neg (by simp)]
    simp only [safetool.convertSliceLoop, helem]
  · simp only [tool.ConvertSlice, List.length_singleton]
    rw [if_neg (by simp)]
    simp only [tool.convertLoopLoose, hloose]

/-- Witness for C6 at the claim's narrowing example: a record with fields
`A int, B string` converted to a struct with only field `A`. -/
theorem c6_struct_field_mapping_witness :
    safetool.convertElemCore (Ty.strukt (Fields.cons "A" Ty.int Fields.nil))
        (Value.vstruct (Fields.cons "A" Ty.int (Fields.cons "B" Ty.string Fields.nil))
          [Value.vint Ty.int 1, Value.vstring "one"]) =
      .ok (Value.vstruct (Fields.cons "A" Ty.int Fields.nil)
        (structConvSpec (Fields.cons "A" Ty.int Fields.nil)
          (Fields.cons "A" Ty.int (Fields.cons "B" Ty.string Fields.nil))
          [Value.vint Ty.int 1, Value.vstring "one"])) ∧
    tool.convertElemLoose (Ty.strukt (Fields.cons "A" Ty.int Fields.nil))
        (Value.vstruct (Fields.cons "A" Ty.int (Fields.cons "B" Ty.string Fields.nil))
          [Value.vint Ty.int 1, Value.vstring "one"]) =
      .ret (Value.vstruct (Fields.cons "A" Ty.int Fields.nil)
        (structConvSpec (Fields.cons "A" Ty.int Fields.nil)
          (Fields.cons "A" Ty.int (Fields.cons "B" Ty.string Fields.nil))
          [Value.vint Ty.int 1, Value.vstring "one"])) ∧
    safetool.ConvertSlice
        (some [Value.vstruct (Fields.cons "A" Ty.int (Fields.cons "B" Ty.string Fields.nil))
          [Value.vint Ty.int 1, Value.vstring "one"]])
        (Ty.strukt (Fields.cons "A" Ty.int Fields.nil)) =
      .ok [Value.vstruct (Fields.cons "A" Ty.int Fields.nil)
        (structConvSpec (Fields.cons "A" Ty.int Fields.nil)
          (Fields.cons "A" Ty.int (Fields.cons "B" Ty.string Fields.nil))
          [Value.vint Ty.int 1, Value.vstring "one"])] ∧
    tool.ConvertSlice
        (some [Value.vstruct (Fields.cons "A" Ty.int (Fields.cons "B" Ty.string Fields.nil))
          [Value.vint Ty.int 1, Value.vstring "one"]])
        (Ty.strukt (Fields.cons "A" Ty.int Fields.nil)) =
      .ret (some [Value.vstruct (Fields.cons "A" Ty.int Fields.nil)
        (structConvSpec (Fields.cons "A" Ty.int Fields.nil)
          (Fields.cons "A" Ty.int (Fields.cons "B" Ty.string Fields.nil))
          [Value.vint Ty.int 1, Value.vstring "one"])]) :=
  c6_struct_field_mapping
    (Fields.cons "A" Ty.int (Fields.cons "B" Ty.string Fields.nil))
    (Fields.cons "A" Ty.int Fields.nil)
    [Value.vint Ty.int 1, Value.vstring "one"]
    rfl (by simp [Fields.names]) (by simp [Fields.names])
    (by
      intro n t n2 dty hmem hfind
      rcases List.mem_cons.mp hmem with heq | hmem2
      · injection heq with h1 h2
        subst h1
        subst h2
        simp only [Fields.findByName] at hfind
        simp only [show (("A" : String) == "A") = true from rfl, if_true,
          Option.some.injEq, Prod.mk.injEq] at hfind
        rw [← hfind.2]
        rfl
      · rcases List.mem_cons.mp hmem2 with heq | hmem3
        · injection heq with h1 h2
          subst h1
          subst h2
          simp only [Fields.findByName] at hfind
          simp only [show (("A" : String) == "B") = false from rfl,
            Bool.false_eq_true, if_false] at hfind
          cases hfind
        · cases hmem3)
